import Mathlib

/-!
Shallow embedding of the kb-gui display driver (`src/main.rs`).

The program drives a monochrome HID display: a packed-bit framebuffer
(`Screen`), bit-level get/set pixel operations, packetization of the
framebuffer into 32-byte HID reports (`to_packets`), and a diff-based
transmitter (`send`) that skips packets identical to the previously sent
frame.

Modelling conventions:
* `u8` bytes are `ℕ` (all operations below preserve `< 256` when inputs
  are `< 256`); `usize` is `ℕ`; `isize` is `ℤ`.  Where unsigned wraparound
  matters (`render_centered`'s `128 - width_needed`) the wrap is written
  out explicitly modulo `2 ^ 64`.
* `Vec<u8>` is `List ℕ`.  Rust's panicking index read `data[i]` is
  modelled with `List.getD _ _ 0` and the panicking index write with
  `List.set`; the bounds theorems below establish when the indices are in
  range, which is where the model and the Rust code agree.
* The HID device is an external capability.  It is modelled as an oracle
  `dev : ℕ → Bool` giving the success of the n-th write attempt of a
  frame; `send` returns the list of byte strings actually written and
  whether all writes succeeded (Rust returns `Err` on the first failing
  write and aborts the rest).
* `to_packets` converts each chunk index with `index.try_into::<u8>()
  .unwrap()`, which panics as soon as an index exceeds 255, i.e. as soon
  as there are more than 256 chunks.  The panic is modelled by returning
  `none`.
* The font rasterizer (fontdue) is an external capability: glyph widths
  enter the layout code as a function `Char → ℕ`.
-/

/-- `pub const PAYLOAD_SIZE: usize = 32;` -/
def PAYLOAD_SIZE : ℕ := 32

/-- `struct DataPacket { index: u8, payload: [u8; PAYLOAD_SIZE - 2] }`.
The payload is a byte list (length `PAYLOAD_SIZE - 2 = 30` for every
packet produced by `to_packets`).  Equality is structural (derived
`PartialEq`): index and payload must both match. -/
structure DataPacket where
  index : ℕ
  payload : List ℕ
deriving DecidableEq

/-- `DataPacket::to_bytes`: report-type byte `1`, then the index byte,
then the payload. -/
def DataPacket.to_bytes (p : DataPacket) : List ℕ :=
  1 :: p.index :: p.payload

/-- `struct Screen` minus the boxed HID device (an external capability,
supplied separately to `send` as a write oracle). -/
structure Screen where
  width : ℕ
  height : ℕ
  data : List ℕ
  _prev_packets : Option (List DataPacket)
deriving DecidableEq

/-- `Screen::from_device`: `data = vec![0; (width * height) / 8]`,
`_prev_packets = None`.  The constructor performs no validation of
`width` or `height` (in particular it does not require `width` to be a
multiple of 8). -/
def Screen.from_device (width height : ℕ) : Screen :=
  { width := width
    height := height
    data := List.replicate ((width * height) / 8) 0
    _prev_packets := none }

/-- `get_bit_at_index`: `mask = 0b10000000 >> bit_index; mask & byte != 0`. -/
def get_bit_at_index (byte bit_index : ℕ) : Bool :=
  let mask := 128 >>> bit_index
  mask &&& byte != 0

/-- `set_bit_at_index`: `mask = 0b10000000 >> bit_index;` then
`mask | byte` when enabling, `(mask ^ 0b11111111) & byte` when
disabling. -/
def set_bit_at_index (byte bit_index : ℕ) (enabled : Bool) : ℕ :=
  let mask := 128 >>> bit_index
  if enabled then mask ||| byte else (mask ^^^ 255) &&& byte

/-- `Screen::get_pixel(x: usize, y: usize)`:
`byte_index = (x + y * width) / 8`, `bit_index = 7 - (x % 8)`.
Rust reads `self.data[byte_index]` (panicking out of bounds); the model
reads `getD _ _ 0`, faithful whenever `byte_index < data.length`. -/
def Screen.get_pixel (s : Screen) (x y : ℕ) : Bool :=
  let byte_index := (x + y * s.width) / 8
  let bit_index := 7 - (x % 8)
  get_bit_at_index (s.data.getD byte_index 0) bit_index

/-- `Screen::set_pixel(x: isize, y: isize, enabled: bool)`: silently
returns when a coordinate is out of range; otherwise
`target_byte = (x / 8) * height + y`, `target_bit = 7 - (x % 8)`, and the
addressed byte is rewritten via `set_bit_at_index`.  Rust writes
`self.data[target_byte]` (panicking out of bounds); the model uses
`getD`/`List.set`, faithful whenever `target_byte < data.length`. -/
def Screen.set_pixel (s : Screen) (x y : ℤ) (enabled : Bool) : Screen :=
  if x ≥ (s.width : ℤ) ∨ y ≥ (s.height : ℤ) ∨ x < 0 ∨ y < 0 then s
  else
    let xn := x.toNat
    let yn := y.toNat
    let target_byte := (xn / 8) * s.height + yn
    let target_bit := 7 - (xn % 8)
    let newByte := set_bit_at_index (s.data.getD target_byte 0) target_bit enabled
    { s with data := s.data.set target_byte newByte }

/-- `Screen::clear`: `data = vec![0; width * height / 8]`. -/
def Screen.clear (s : Screen) : Screen :=
  { s with data := List.replicate ((s.width * s.height) / 8) 0 }

/-- `Screen::fill_all`: `data = vec![1; width * height / 8]` — note the
byte value is `1`, not `0xFF`. -/
def Screen.fill_all (s : Screen) : Screen :=
  { s with data := List.replicate ((s.width * s.height) / 8) 1 }

/-- Recursion core for `chunks30`.  The first argument is a structural
bound on the number of steps (any bound ≥ the list length gives the same
result; `chunks30` passes the length itself), so the function reduces by
ordinary structural recursion: while the list is nonempty, emit
`take (PAYLOAD_SIZE - 2)` and continue on `drop (PAYLOAD_SIZE - 2)`. -/
def chunks30Go : ℕ → List ℕ → List (List ℕ)
  | _, [] => []
  | 0, _ :: _ => []
  | fuel + 1, a :: l => ((a :: l).take (PAYLOAD_SIZE - 2)) ::
      chunks30Go fuel ((a :: l).drop (PAYLOAD_SIZE - 2))

/-- `self.data.iter().chunks(PAYLOAD_SIZE - 2)`: consecutive chunks of at
most 30 bytes, front to back, last chunk possibly short. -/
def chunks30 (l : List ℕ) : List (List ℕ) := chunks30Go l.length l

/-- The per-chunk body of `to_packets`: copy the (≤ 30) chunk bytes into
a zeroed 30-byte array (`output_array`), i.e. zero-pad the chunk to
exactly 30 bytes. -/
def padChunk (c : List ℕ) : List ℕ :=
  c.take (PAYLOAD_SIZE - 2) ++
    List.replicate ((PAYLOAD_SIZE - 2) - (c.take (PAYLOAD_SIZE - 2)).length) 0

/-- `.enumerate().map(|(index, chunk)| DataPacket::new(index.try_into()
.unwrap(), chunk))` with the running index starting at `i`. -/
def enumPackets (i : ℕ) : List (List ℕ) → List DataPacket
  | [] => []
  | c :: cs => ⟨i, c⟩ :: enumPackets (i + 1) cs

/-- `Screen::to_packets` as a function of the canvas bytes.  `none`
models the `index.try_into::<u8>().unwrap()` panic, which fires exactly
when some enumerate index exceeds 255, i.e. when there are more than 256
chunks. -/
def toPackets (data : List ℕ) : Option (List DataPacket) :=
  let chunks := (chunks30 data).map padChunk
  if chunks.length ≤ 256 then some (enumPackets 0 chunks) else none

/-- The packet-send loop of `Screen::send`: writes each packet's bytes in
order, aborting on the first failed write (`?` on `packet.send`).  `n`
counts the write attempts of this frame for the oracle; returns the
successfully written byte strings and whether every write succeeded. -/
def sendLoop (dev : ℕ → Bool) : ℕ → List DataPacket → List (List ℕ) × Bool
  | _, [] => ([], true)
  | n, p :: ps =>
    if dev n then
      let r := sendLoop dev (n + 1) ps
      (p.to_bytes :: r.1, r.2)
    else ([], false)

/-- `Screen::send`: compute `to_packets`, retain only packets not
contained (structural equality) in `_prev_packets`, store the full
unfiltered current packet list as the new `_prev_packets` (this happens
before any write), then write the retained packets in order.  `none`
models a `to_packets` panic; otherwise the result is the new screen
state, the byte strings written, and whether all writes succeeded.
(The source recomputes `self.to_packets()` for the baseline; the data is
unchanged in between, so it equals `packets`.) -/
def Screen.send (dev : ℕ → Bool) (s : Screen) :
    Option (Screen × List (List ℕ) × Bool) :=
  match toPackets s.data with
  | none => none
  | some packets =>
    let filtered :=
      match s._prev_packets with
      | some prev => packets.filter (fun p => !(decide (p ∈ prev)))
      | none => packets
    let s' : Screen := { s with _prev_packets := some packets }
    let r := sendLoop dev 0 filtered
    some (s', r.1, r.2)

/-- Concrete all-successful write oracle, used by witnesses. -/
def devTrue : ℕ → Bool := fun _ => true

/-- Concrete all-failing write oracle, used by witnesses. -/
def devFalse : ℕ → Bool := fun _ => false

lemma payload_size_sub_two : PAYLOAD_SIZE - 2 = 30 := rfl

lemma set_pixel_of_out_of_range (s : Screen) (x y : ℤ) (v : Bool)
    (h : x ≥ (s.width : ℤ) ∨ y ≥ (s.height : ℤ) ∨ x < 0 ∨ y < 0) :
    s.set_pixel x y v = s := by
  unfold Screen.set_pixel
  rw [if_pos h]

/-- C5: `set_pixel` with any out-of-range coordinate (negative, or at
least the corresponding dimension) leaves the screen — in particular its
`data` bytes — completely unchanged, and is total (no error, no panic,
no wrap-around write). -/
theorem set_pixel_out_of_range_noop (s : Screen) (x y : ℤ) (v : Bool)
    (h : x < 0 ∨ y < 0 ∨ (s.width : ℤ) ≤ x ∨ (s.height : ℤ) ≤ y) :
    s.set_pixel x y v = s := by
  apply set_pixel_of_out_of_range
  tauto

/-- Witness for C5 at the concrete input `x = -1` on a 16×16 screen. -/
theorem set_pixel_out_of_range_noop_witness :
    (Screen.from_device 16 16).set_pixel (-1) 3 true = Screen.from_device 16 16 :=
  set_pixel_out_of_range_noop (Screen.from_device 16 16) (-1) 3 true (by decide)

/-- C1 (code bug): on a 16×16 all-zero canvas, `set_pixel 8 0 true`
writes byte `(8/8)*16 + 0 = 16` (setting it to `0b00000001`), while
`get_pixel 8 0` reads byte `(8 + 0*16)/8 = 1`, which is still `0`; the
round trip therefore returns `false` instead of `true`, because the two
operations use different byte-addressing formulas. -/
theorem bit_round_trip_fails :
    ((Screen.from_device 16 16).set_pixel 8 0 true).get_pixel 8 0 = false ∧
    ((Screen.from_device 16 16).set_pixel 8 0 true).data.getD 16 0 = 1 ∧
    ((Screen.from_device 16 16).set_pixel 8 0 true).data.getD 1 0 = 0 := by
  decide

/-- C6 (code bug for the `fill` half): after `clear` every in-bounds
pixel of a 16×16 screen reads `false`, as claimed; but `fill_all` writes
byte value `1` (not `0xFF`) into every byte, so `get_pixel` returns
`true` only at columns with `x % 8 = 0` — at `(1, 0)` it returns
`false`, contradicting the claim that every pixel reads `true`. -/
theorem clear_all_off_but_fill_not_all_on :
    ((List.range 16).all fun x => (List.range 16).all fun y =>
      !((Screen.from_device 16 16).clear.get_pixel x y)) = true ∧
    (Screen.from_device 16 16).fill_all.get_pixel 0 0 = true ∧
    (Screen.from_device 16 16).fill_all.get_pixel 1 0 = false := by
  decide

/-- C10: when `width` is a multiple of 8 and `(x, y)` is in bounds, both
the `get_pixel` byte index `(x + y*width)/8` and the `set_pixel` byte
index `(x/8)*height + y` are strictly below the buffer length
`width*height/8`, so neither operation indexes out of bounds; and the
constructor allocates `width*height/8` bytes for every `width` and
`height` without validating the multiple-of-8 precondition. -/
theorem pixel_byte_indices_in_bounds :
    (∀ w h x y : ℕ, w % 8 = 0 → x < w → y < h →
      (x + y * w) / 8 < (Screen.from_device w h).data.length ∧
      (x / 8) * h + y < (Screen.from_device w h).data.length) ∧
    (∀ w h : ℕ, (Screen.from_device w h).data.length = w * h / 8) := by
  constructor
  · intro w h x y hw hx hy
    have hlen : (Screen.from_device w h).data.length = w * h / 8 := by
      simp [Screen.from_device]
    rw [hlen]
    obtain ⟨m, rfl⟩ : ∃ m, w = 8 * m := ⟨w / 8, by omega⟩
    have hm : 0 < m := by
      rcases Nat.eq_zero_or_pos m with hm0 | hm0
      · omega
      · exact hm0
    have hdiv : 8 * m * h / 8 = m * h := by
      have h8 : 8 * m * h = m * h * 8 := by ring
      rw [h8, Nat.mul_div_cancel _ (by norm_num)]
    rw [hdiv]
    have hsplit : x + y * (8 * m) = x + y * m * 8 := by ring
    have hym : y * m ≤ (h - 1) * m := Nat.mul_le_mul_right m (by omega)
    have hsub1 : (h - 1) * m = h * m - m := by rw [Nat.sub_mul, one_mul]
    have hge1 : m ≤ h * m := Nat.le_mul_of_pos_left m (by omega)
    have hcomm : m * h = h * m := Nat.mul_comm m h
    have hxh : x / 8 * h ≤ (m - 1) * h := Nat.mul_le_mul_right h (by omega)
    have hsub2 : (m - 1) * h = m * h - h := by rw [Nat.sub_mul, one_mul]
    have hge2 : h ≤ m * h := Nat.le_mul_of_pos_left h hm
    constructor
    · rw [hsplit]
      omega
    · omega
  · intro w h
    simp [Screen.from_device]

lemma chunks30Go_closed : ∀ (N : ℕ) (l : List ℕ), l.length ≤ N →
    chunks30Go N l =
      (List.range ((l.length + 29) / 30)).map fun k => (l.drop (30 * k)).take 30 := by
  intro N
  induction N with
  | zero =>
    intro l hl
    have hnil : l = [] := List.eq_nil_of_length_eq_zero (by omega)
    subst hnil
    simp [chunks30Go]
  | succ N ih =>
    intro l hl
    match l with
    | [] => simp [chunks30Go]
    | a :: l' =>
      have hstep : chunks30Go (N + 1) (a :: l') =
          ((a :: l').take 30) :: chunks30Go N ((a :: l').drop 30) := rfl
      rw [hstep]
      have hlen : ((a :: l').drop 30).length = (a :: l').length - 30 := by
        simp
      have ih' := ih ((a :: l').drop 30) (by simp at hl ⊢; omega)
      rw [ih', hlen]
      have hL : (a :: l').length = l'.length + 1 := by simp
      rw [hL]
      have hn : (l'.length + 1 + 29) / 30 = (l'.length + 1 - 30 + 29) / 30 + 1 := by
        omega
      rw [hn, List.range_succ_eq_map, List.map_cons, List.map_map]
      have h0 : (a :: l').take 30 = ((a :: l').drop (30 * 0)).take 30 := by
        simp
      rw [h0]
      congr 1
      apply List.map_congr_left
      intro k _
      simp only [Function.comp_apply, List.drop_drop]
      congr 2
      omega

lemma chunks30_eq (l : List ℕ) :
    chunks30 l =
      (List.range ((l.length + 29) / 30)).map fun k => (l.drop (30 * k)).take 30 :=
  chunks30Go_closed l.length l le_rfl

lemma chunks30_length (l : List ℕ) : (chunks30 l).length = (l.length + 29) / 30 := by
  rw [chunks30_eq]
  simp

lemma enumPackets_range : ∀ (n : ℕ) (g : ℕ → List ℕ) (i : ℕ),
    enumPackets i ((List.range n).map g) =
      (List.range n).map fun j => (⟨i + j, g j⟩ : DataPacket) := by
  intro n
  induction n with
  | zero => intro g i; simp [enumPackets]
  | succ n ih =>
    intro g i
    rw [List.range_succ_eq_map, List.map_cons, List.map_cons, List.map_map,
      List.map_map, enumPackets, ih]
    refine List.cons_eq_cons.mpr ⟨by simp, ?_⟩
    apply List.map_congr_left
    intro j hj
    simp only [Function.comp_apply, DataPacket.mk.injEq]
    exact ⟨by omega, trivial⟩

/-- The closed form of `to_packets`: packet `k` carries the zero-padded
bytes `data[30k .. 30k+30)`. -/
def packetsOf (data : List ℕ) : List DataPacket :=
  (List.range ((data.length + 29) / 30)).map
    fun k => ⟨k, padChunk ((data.drop (30 * k)).take 30)⟩

lemma toPackets_eq (data : List ℕ) (h : (data.length + 29) / 30 ≤ 256) :
    toPackets data = some (packetsOf data) := by
  have hlen : ((chunks30 data).map padChunk).length = (data.length + 29) / 30 := by
    rw [List.length_map, chunks30_length]
  unfold toPackets
  simp only []
  rw [if_pos (by rw [hlen]; exact h)]
  rw [chunks30_eq, List.map_map, enumPackets_range]
  unfold packetsOf
  apply congrArg
  apply List.map_congr_left
  intro k _
  simp

lemma toPackets_none (data : List ℕ) (h : 256 < (data.length + 29) / 30) :
    toPackets data = none := by
  have hlen : ((chunks30 data).map padChunk).length = (data.length + 29) / 30 := by
    rw [List.length_map, chunks30_length]
  unfold toPackets
  simp only []
  rw [if_neg (by omega)]

lemma padChunk_of_le (c : List ℕ) (h : c.length ≤ 30) :
    padChunk c = c ++ List.replicate (30 - c.length) 0 := by
  unfold padChunk
  rw [payload_size_sub_two, List.take_of_length_le h]

/-- C4 counterexample: a canvas byte buffer of length 7681 needs
`ceil(7681/30) = 257` chunks, so the 257th enumerate index is 256 and
`index.try_into::<u8>().unwrap()` panics — `to_packets` does not return
`ceil(L/P)` packets for every canvas. -/
theorem toPackets_panics_beyond_256_chunks :
    toPackets (List.replicate 7681 0) = none := by
  apply toPackets_none
  rw [List.length_replicate]
  norm_num

/-- C4 (amended): for every byte buffer needing at most 256 chunks,
`to_packets` returns exactly `ceil(L/30)` packets whose indices are
`0, 1, …` in chunk order, packet `k` carrying bytes `[30k, 30k+30)` of
the buffer zero-padded to 30 bytes (so the chunks cover the buffer
front-to-back with no gaps or overlaps and the final payload is the
remaining real bytes followed by zeros); and every 16-byte buffer yields
exactly one packet of index 0 whose payload is the 16 real bytes
followed by 14 zero bytes. -/
theorem toPackets_count_indices_padding :
    (∀ data : List ℕ, (data.length + 29) / 30 ≤ 256 →
      ∃ ps, toPackets data = some ps ∧
        ps.length = (data.length + 29) / 30 ∧
        ∀ k, k < ps.length →
          ps.getD k ⟨0, []⟩ =
            ⟨k, (data.drop (30 * k)).take 30 ++
              List.replicate (30 - ((data.drop (30 * k)).take 30).length) 0⟩) ∧
    (∀ data : List ℕ, data.length = 16 →
      toPackets data = some [⟨0, data ++ List.replicate 14 0⟩]) := by
  constructor
  · intro data h
    refine ⟨packetsOf data, toPackets_eq data h, by simp [packetsOf], ?_⟩
    intro k hk
    have hk2 : k < (packetsOf data).length := hk
    have hlen30 : ((data.drop (30 * k)).take 30).length ≤ 30 := by
      rw [List.length_take]
      omega
    rw [List.getD_eq_getElem _ _ hk2]
    simp only [packetsOf, List.getElem_map, List.getElem_range]
    rw [padChunk_of_le _ hlen30]
  · intro data h
    have h1 : (data.length + 29) / 30 ≤ 256 := by omega
    rw [toPackets_eq data h1]
    unfold packetsOf
    have h2 : (data.length + 29) / 30 = 1 := by omega
    have h3 : List.range 1 = [0] := rfl
    rw [h2, h3, List.map_cons, List.map_nil]
    simp only [Nat.mul_zero, List.drop_zero]
    rw [List.take_of_length_le (by omega)]
    rw [padChunk_of_le data (by omega)]
    rw [h]

/-- Witness for C4's amended theorem at a concrete 16-byte buffer. -/
theorem toPackets_count_indices_padding_witness :
    toPackets (List.replicate 16 7) =
      some [⟨0, List.replicate 16 7 ++ List.replicate 14 0⟩] :=
  toPackets_count_indices_padding.2 (List.replicate 16 7) (by simp)

lemma update_prev_self (s : Screen) (ps : List DataPacket)
    (h : s._prev_packets = some ps) : { s with _prev_packets := some ps } = s := by
  cases s
  simp only [Screen.mk.injEq, and_true, true_and]
  simp only [] at h
  rw [h]

lemma send_elim {dev : ℕ → Bool} {s s1 : Screen} {ws : List (List ℕ)} {ok : Bool}
    (h : s.send dev = some (s1, ws, ok)) :
    ∃ ps, toPackets s.data = some ps ∧ s1 = { s with _prev_packets := some ps } := by
  unfold Screen.send at h
  cases hp : toPackets s.data with
  | none =>
    rw [hp] at h
    simp at h
  | some ps =>
    rw [hp] at h
    simp only [Option.some.injEq, Prod.mk.injEq] at h
    exact ⟨ps, rfl, h.1.symm⟩

lemma send_no_change {dev : ℕ → Bool} {s : Screen} {ps : List DataPacket}
    (hp : toPackets s.data = some ps) (hprev : s._prev_packets = some ps) :
    s.send dev = some (s, [], true) := by
  unfold Screen.send
  rw [hp, hprev]
  have hfil : ps.filter (fun p => !(decide (p ∈ ps))) = [] := by
    rw [List.filter_eq_nil_iff]
    intro p hpmem
    simp [hpmem]
  dsimp only
  rw [hfil]
  rw [update_prev_self s ps hprev]
  rfl

/-- C2: if `send` returned on a canvas (in any baseline state), then a
second `send` on the unmodified canvas transmits zero packets (the
stored baseline is the full current packet list, so every current packet
is filtered out by the structural-equality membership check), succeeds,
and leaves the state unchanged. -/
theorem send_twice_sends_nothing (dev dev' : ℕ → Bool) (s s1 : Screen)
    (ws : List (List ℕ)) (ok : Bool) (h : s.send dev = some (s1, ws, ok)) :
    s1.send dev' = some (s1, [], true) := by
  obtain ⟨ps, hp, rfl⟩ := send_elim h
  exact send_no_change hp rfl

/-- Witness for C2: first `send` on a fresh 16×16 screen transmits both
packets; the second transmits none. -/
theorem send_twice_sends_nothing_witness :
    Screen.send devTrue
        ⟨16, 16, List.replicate 32 0, some [⟨0, List.replicate 30 0⟩, ⟨1, List.replicate 30 0⟩]⟩ =
      some (⟨16, 16, List.replicate 32 0,
              some [⟨0, List.replicate 30 0⟩, ⟨1, List.replicate 30 0⟩]⟩, [], true) :=
  send_twice_sends_nothing devTrue devTrue (Screen.from_device 16 16)
    ⟨16, 16, List.replicate 32 0, some [⟨0, List.replicate 30 0⟩, ⟨1, List.replicate 30 0⟩]⟩
    [1 :: 0 :: List.replicate 30 0, 1 :: 1 :: List.replicate 30 0] true (by decide)

/-- C9: the baseline `_prev_packets` is overwritten with the full current
packet list before any transport write, so even when a write fails
mid-frame (`ok = false`, error returned to the caller), the returned
state's baseline is the complete current packet set and a subsequent
`send` on the unchanged canvas transmits zero packets. -/
theorem send_failure_still_updates_baseline (dev dev' : ℕ → Bool)
    (s s1 : Screen) (ws : List (List ℕ)) (ps : List DataPacket)
    (hp : toPackets s.data = some ps)
    (h : s.send dev = some (s1, ws, false)) :
    s1._prev_packets = some ps ∧ s1.data = s.data ∧
      s1.send dev' = some (s1, [], true) := by
  obtain ⟨ps2, hp2, rfl⟩ := send_elim h
  have hps : ps2 = ps := by
    rw [hp] at hp2
    exact (Option.some.inj hp2).symm
  subst hps
  exact ⟨rfl, rfl, send_no_change hp2 rfl⟩

/-- Witness for C9: on a fresh 16×16 screen with an always-failing
transport, `send` returns the error (`false`) yet stores both packets as
the baseline, and the next `send` transmits nothing. -/
theorem send_failure_still_updates_baseline_witness :
    (⟨16, 16, List.replicate 32 0,
        some [⟨0, List.replicate 30 0⟩, ⟨1, List.replicate 30 0⟩]⟩ : Screen)._prev_packets =
        some [⟨0, List.replicate 30 0⟩, ⟨1, List.replicate 30 0⟩] ∧
      (⟨16, 16, List.replicate 32 0,
        some [⟨0, List.replicate 30 0⟩, ⟨1, List.replicate 30 0⟩]⟩ : Screen).data =
        (Screen.from_device 16 16).data ∧
      Screen.send devTrue
          ⟨16, 16, List.replicate 32 0, some [⟨0, List.replicate 30 0⟩, ⟨1, List.replicate 30 0⟩]⟩ =
        some (⟨16, 16, List.replicate 32 0,
                some [⟨0, List.replicate 30 0⟩, ⟨1, List.replicate 30 0⟩]⟩, [], true) :=
  send_failure_still_updates_baseline devFalse devTrue (Screen.from_device 16 16)
    ⟨16, 16, List.replicate 32 0, some [⟨0, List.replicate 30 0⟩, ⟨1, List.replicate 30 0⟩]⟩
    [] [⟨0, List.replicate 30 0⟩, ⟨1, List.replicate 30 0⟩] (by decide) (by decide)

lemma getD_append_left (c d : List ℕ) (r : ℕ) (h : r < c.length) :
    (c ++ d).getD r 0 = c.getD r 0 := by
  rw [List.getD_eq_getElem?_getD, List.getElem?_append_left h,
    ← List.getD_eq_getElem?_getD]

lemma getD_take_drop (u : List ℕ) (a r : ℕ) (hr : r < 30) (h : a + r < u.length) :
    ((u.drop a).take 30).getD r 0 = u.getD (a + r) 0 := by
  have h1 : r < ((u.drop a).take 30).length := by
    rw [List.length_take, List.length_drop]
    omega
  rw [List.getD_eq_getElem _ 0 h1, List.getD_eq_getElem u 0 h]
  simp only [List.getElem_take, List.getElem_drop]

lemma agree_chunks (u v : List ℕ) (b : ℕ) (hlen : v.length = u.length)
    (hag : ∀ j, j < u.length → j ≠ b → v.getD j 0 = u.getD j 0)
    (a : ℕ) (hout : ∀ i, i < 30 → a + i ≠ b) :
    (v.drop a).take 30 = (u.drop a).take 30 := by
  apply List.ext_getElem
  · simp [hlen]
  · intro i h1 h2
    simp only [List.getElem_take, List.getElem_drop]
    have hi30 : i < 30 := by
      rw [List.length_take, List.length_drop] at h1
      omega
    have hi : a + i < u.length := by
      rw [List.length_take, List.length_drop, hlen] at h1
      omega
    have hgd := hag (a + i) hi (hout i hi30)
    rw [List.getD_eq_getElem v 0 (by omega), List.getD_eq_getElem u 0 hi] at hgd
    exact hgd

lemma padChunk_chunk_ne (u v : List ℕ) (b : ℕ) (hlen : v.length = u.length)
    (hb : b < u.length) (hne : v.getD b 0 ≠ u.getD b 0) :
    padChunk ((v.drop (30 * (b / 30))).take 30) ≠
      padChunk ((u.drop (30 * (b / 30))).take 30) := by
  intro hcontra
  apply hne
  have hr : b % 30 < 30 := by omega
  have hbeq : 30 * (b / 30) + b % 30 = b := by omega
  have h1 := congrArg (fun l => l.getD (b % 30) 0) hcontra
  simp only [] at h1
  rw [padChunk_of_le _ (by rw [List.length_take]; omega),
    padChunk_of_le _ (by rw [List.length_take]; omega)] at h1
  rw [getD_append_left _ _ _ (by rw [List.length_take, List.length_drop]; omega),
    getD_append_left _ _ _ (by rw [List.length_take, List.length_drop]; omega)] at h1
  rw [getD_take_drop v _ _ hr (by omega), getD_take_drop u _ _ hr (by omega)] at h1
  rw [hbeq] at h1
  exact h1

lemma filter_range_single (q : ℕ → Bool) (k : ℕ) :
    ∀ n, k < n → (∀ j, j < n → (q j = true ↔ j = k)) →
      (List.range n).filter q = [k] := by
  intro n
  induction n with
  | zero =>
    intro hk _
    omega
  | succ n ih =>
    intro hk hq
    rw [List.range_succ, List.filter_append]
    by_cases hkn : k = n
    · subst hkn
      have h1 : (List.range k).filter q = [] := by
        rw [List.filter_eq_nil_iff]
        intro j hj
        rw [List.mem_range] at hj
        intro hqj
        have := (hq j (by omega)).mp hqj
        omega
      have h2 : q k = true := (hq k (by omega)).mpr rfl
      rw [h1]
      simp [List.filter_cons, h2]
    · have h2 : q n = false := by
        cases hqn : q n with
        | false => rfl
        | true => exact absurd ((hq n (by omega)).mp hqn) (by omega)
      rw [ih (by omega) (fun j hj => hq j (by omega))]
      simp [List.filter_cons, h2]

lemma filter_map_range_single (f : ℕ → DataPacket) (q : DataPacket → Bool)
    (n k : ℕ) (hk : k < n) (hq : ∀ j, j < n → (q (f j) = true ↔ j = k)) :
    ((List.range n).map f).filter q = [f k] := by
  rw [List.filter_map]
  rw [filter_range_single (q ∘ f) k n hk (fun j hj => hq j hj)]
  simp

/-- C3: after a `send` made the full packet list of `data` the baseline,
changing exactly one byte of the canvas — the byte at position `b`,
which lies in chunk `b / 30` — makes the next `send` transmit exactly
one report: type byte 1, index byte `b / 30`, then that chunk's padded
payload.  All other packets are suppressed by the structural-equality
membership check against the previous sequence. -/
theorem flip_one_byte_retransmits_one_packet
    (w h : ℕ) (dev : ℕ → Bool) (hdev : dev 0 = true)
    (data data' : List ℕ) (b : ℕ) (ps : List DataPacket)
    (hlen : data'.length = data.length)
    (hb : b < data.length)
    (hne : data'.getD b 0 ≠ data.getD b 0)
    (hag : ∀ j, j < data.length → j ≠ b → data'.getD j 0 = data.getD j 0)
    (hp : toPackets data = some ps) :
    toPackets data' = some (packetsOf data') ∧
      Screen.send dev ⟨w, h, data', some ps⟩ =
        some (⟨w, h, data', some (packetsOf data')⟩,
          [1 :: (b / 30) :: padChunk ((data'.drop (30 * (b / 30))).take 30)], true) := by
  have hn256 : (data.length + 29) / 30 ≤ 256 := by
    by_contra hcon
    rw [toPackets_none data (by omega)] at hp
    exact Option.noConfusion hp
  have hps : ps = packetsOf data := by
    rw [toPackets_eq data hn256] at hp
    exact (Option.some.inj hp).symm
  have hn256' : (data'.length + 29) / 30 ≤ 256 := by
    rw [hlen]
    exact hn256
  have hp' : toPackets data' = some (packetsOf data') := toPackets_eq data' hn256'
  refine ⟨hp', ?_⟩
  have hkn : b / 30 < (data.length + 29) / 30 := by omega
  have hchunk_eq : ∀ j, j < (data.length + 29) / 30 → j ≠ b / 30 →
      padChunk ((data'.drop (30 * j)).take 30) =
        padChunk ((data.drop (30 * j)).take 30) := by
    intro j hj hjk
    refine congrArg padChunk (agree_chunks data data' b hlen hag (30 * j) ?_)
    intro i hi hcon
    apply hjk
    omega
  have hchunk_ne : padChunk ((data'.drop (30 * (b / 30))).take 30) ≠
      padChunk ((data.drop (30 * (b / 30))).take 30) :=
    padChunk_chunk_ne data data' b hlen hb hne
  have hmem : ∀ j, j < (data.length + 29) / 30 →
      ((⟨j, padChunk ((data'.drop (30 * j)).take 30)⟩ : DataPacket) ∈ ps ↔
        j ≠ b / 30) := by
    intro j hj
    constructor
    · intro hin hjk
      rw [hps] at hin
      unfold packetsOf at hin
      rw [List.mem_map] at hin
      obtain ⟨j2, _, hj2eq⟩ := hin
      have hidx : j2 = j := congrArg DataPacket.index hj2eq
      have hpay := congrArg DataPacket.payload hj2eq
      rw [hidx] at hpay
      rw [hjk] at hpay
      exact hchunk_ne hpay.symm
    · intro hjk
      rw [hps]
      unfold packetsOf
      rw [List.mem_map]
      exact ⟨j, List.mem_range.mpr hj, by rw [hchunk_eq j hj hjk]⟩
  have hfil : (packetsOf data').filter (fun p => !(decide (p ∈ ps))) =
      [⟨b / 30, padChunk ((data'.drop (30 * (b / 30))).take 30)⟩] := by
    unfold packetsOf
    rw [hlen]
    refine filter_map_range_single _ _ _ _ hkn ?_
    intro j hj
    have hm := hmem j hj
    simp only [Bool.not_eq_true', decide_eq_false_iff_not]
    rw [hm]
    exact not_not
  unfold Screen.send
  dsimp only
  rw [hp']
  dsimp only
  rw [hfil]
  simp [sendLoop, hdev, DataPacket.to_bytes]

/-- Witness for C3 on a 16×16 screen: the frame's byte 31 (chunk 1)
changes from 0 to 5 after a full send; the next send retransmits only
packet 1. -/
theorem flip_one_byte_retransmits_one_packet_witness :
    toPackets (List.replicate 31 0 ++ [5]) =
        some (packetsOf (List.replicate 31 0 ++ [5])) ∧
      Screen.send devTrue ⟨16, 16, List.replicate 31 0 ++ [5],
          some [⟨0, List.replicate 30 0⟩, ⟨1, List.replicate 30 0⟩]⟩ =
        some (⟨16, 16, List.replicate 31 0 ++ [5],
            some (packetsOf (List.replicate 31 0 ++ [5]))⟩,
          [1 :: (31 / 30) ::
            padChunk (((List.replicate 31 0 ++ [5]).drop (30 * (31 / 30))).take 30)],
          true) :=
  flip_one_byte_retransmits_one_packet 16 16 devTrue rfl
    (List.replicate 32 0) (List.replicate 31 0 ++ [5]) 31
    [⟨0, List.replicate 30 0⟩, ⟨1, List.replicate 30 0⟩]
    (by decide) (by decide) (by decide) (by decide) (by decide)

/-- The total-width accumulation of `render_centered`:
`width_needed += metrics.width as usize + font_size as usize / 24` over
the characters of the text.  Glyph pixel widths come from the external
font rasterizer (fontdue), abstracted as the capability `charW`;
`font_size` is the truncated (`as usize`) floating-point size. -/
def width_needed (charW : Char → ℕ) (font_size : ℕ) (text : List Char) : ℕ :=
  text.foldl (fun acc c => acc + (charW c + font_size / 24)) 0

/-- The starting x that `render_centered` passes to `draw_text`:
`((128 - width_needed) / 2).try_into().unwrap()`.  The subtraction
`128 - width_needed` is `usize` arithmetic — the layout width is the
literal 128, not the canvas `width` field — so when `width_needed > 128`
it wraps modulo `2^64` in release builds (debug builds panic on the
overflow); the wrap is written out explicitly.  The
`try_into::<isize>().unwrap()` yields `none` (panic) iff the wrapped
half is ≥ 2^63. -/
def render_centered_start (charW : Char → ℕ) (font_size : ℕ) (text : List Char) :
    Option ℤ :=
  let w := width_needed charW font_size text
  let v := (((128 : ℤ) - (w : ℤ)) % (2 ^ 64 : ℤ)).toNat / 2
  if v < 2 ^ 63 then some (v : ℤ) else none

/-- C7 counterexample: with a single glyph of width 130 (total width
130 > 128), `render_centered`'s starting x is `2^63 - 1` — a huge
positive value from the wrapped unsigned subtraction — not a negative
number as the claim states. -/
theorem render_centered_overflow_start_not_negative :
    128 < width_needed (fun _ => 130) 0 ['A'] ∧
    render_centered_start (fun _ => 130) 0 ['A'] = some (2 ^ 63 - 1) ∧
    ¬((2 ^ 63 - 1 : ℤ) < 0) := by
  decide

/-- C7 (amended): when the total rendered width exceeds the 128-pixel
layout width (and is ≤ 2^63), the starting x is the wrapped unsigned
value `(2^64 + 128 - width_needed) / 2` — nonnegative and at least
`2^62`, far beyond any canvas — so every glyph pixel at that x is
silently discarded by `set_pixel`'s out-of-range no-op policy (release
semantics; debug builds panic on the unsigned overflow), and the call
completes without error. -/
theorem render_centered_overflow_clips (charW : Char → ℕ) (font_size : ℕ)
    (text : List Char) (s : Screen) (y : ℤ) (en : Bool)
    (h1 : 128 < width_needed charW font_size text)
    (h2 : width_needed charW font_size text ≤ 2 ^ 63)
    (hs : s.width ≤ 2 ^ 62) :
    render_centered_start charW font_size text =
        some (((2 ^ 64 + 128 - width_needed charW font_size text) / 2 : ℕ)) ∧
      (2 ^ 62 : ℤ) ≤
        (((2 ^ 64 + 128 - width_needed charW font_size text) / 2 : ℕ) : ℤ) ∧
      s.set_pixel (((2 ^ 64 + 128 - width_needed charW font_size text) / 2 : ℕ) : ℤ)
          y en = s := by
  unfold render_centered_start
  dsimp only
  set wn := width_needed charW font_size text with hwn
  have hmod : ((128 : ℤ) - (wn : ℤ)) % (2 ^ 64 : ℤ) =
      ((2 ^ 64 + 128 - wn : ℕ) : ℤ) := by
    omega
  rw [hmod, Int.toNat_ofNat]
  rw [if_pos (by omega)]
  refine ⟨rfl, by omega, ?_⟩
  apply set_pixel_of_out_of_range
  left
  omega

/-- Witness for C7's amended theorem: one glyph of width 200 on a 16×16
screen. -/
theorem render_centered_overflow_clips_witness :
    render_centered_start (fun _ => 200) 0 ['A'] =
        some (((2 ^ 64 + 128 - width_needed (fun _ => 200) 0 ['A']) / 2 : ℕ)) ∧
      (2 ^ 62 : ℤ) ≤
        (((2 ^ 64 + 128 - width_needed (fun _ => 200) 0 ['A']) / 2 : ℕ) : ℤ) ∧
      (Screen.from_device 16 16).set_pixel
          (((2 ^ 64 + 128 - width_needed (fun _ => 200) 0 ['A']) / 2 : ℕ) : ℤ)
          0 true = Screen.from_device 16 16 :=
  render_centered_overflow_clips (fun _ => 200) 0 ['A']
    (Screen.from_device 16 16) 0 true (by decide) (by decide) (by decide)

/-- C8 counterexample: on a canvas of width 64, a text of total rendered
width 10 (one glyph of width 9, spacing `24/24 = 1`) starts at x = 59 —
`render_centered` centers against the hardcoded 128, not the canvas
width W, so the start differs from the claimed `(W - totalWidth)/2 =
27`. -/
theorem render_centered_ignores_canvas_width :
    (Screen.from_device 64 8).width = 64 ∧
    width_needed (fun _ => 9) 24 ['A'] = 10 ∧
    render_centered_start (fun _ => 9) 24 ['A'] = some 59 ∧
    (59 : ℤ) ≠ ((64 : ℤ) - 10) / 2 := by
  decide

/-- C8 (amended): against the hardcoded layout width 128 (not the
canvas `width` field), a text of total rendered width < 128 starts at
`x = (128 - totalWidth)/2`, so the left margin `x` and the right margin
`128 - totalWidth - x` differ by at most one pixel. -/
theorem render_centered_centers_in_128 (charW : Char → ℕ) (font_size : ℕ)
    (text : List Char) (h : width_needed charW font_size text < 128) :
    render_centered_start charW font_size text =
        some (((128 - width_needed charW font_size text) / 2 : ℕ)) ∧
      (128 - width_needed charW font_size text) -
          2 * ((128 - width_needed charW font_size text) / 2) ≤ 1 := by
  unfold render_centered_start
  dsimp only
  set wn := width_needed charW font_size text with hwn
  have hmod : ((128 : ℤ) - (wn : ℤ)) % (2 ^ 64 : ℤ) = ((128 - wn : ℕ) : ℤ) := by
    omega
  rw [hmod, Int.toNat_ofNat]
  rw [if_pos (by omega)]
  exact ⟨rfl, by omega⟩

/-- Witness for C8's amended theorem: two glyphs of width 9 at size 24
(total width 20) start at x = 54; both margins are 54. -/
theorem render_centered_centers_in_128_witness :
    render_centered_start (fun _ => 9) 24 ['A', 'B'] =
        some (((128 - width_needed (fun _ => 9) 24 ['A', 'B']) / 2 : ℕ)) ∧
      (128 - width_needed (fun _ => 9) 24 ['A', 'B']) -
          2 * ((128 - width_needed (fun _ => 9) 24 ['A', 'B']) / 2) ≤ 1 :=
  render_centered_centers_in_128 (fun _ => 9) 24 ['A', 'B'] (by decide)

/-- Witness for C10 at `(x, y) = (9, 3)` on a 16×16 screen, plus the
unvalidated constructor at the program's actual 62×128 dimensions. -/
theorem pixel_byte_indices_in_bounds_witness :
    ((9 + 3 * 16) / 8 < (Screen.from_device 16 16).data.length ∧
      9 / 8 * 16 + 3 < (Screen.from_device 16 16).data.length) ∧
    (Screen.from_device 62 128).data.length = 62 * 128 / 8 :=
  ⟨pixel_byte_indices_in_bounds.1 16 16 9 3 (by decide) (by decide) (by decide),
    pixel_byte_indices_in_bounds.2 62 128⟩
